import Mathlib

/-! Shallow embedding of `maskrcnn_benchmark/engine/trainer.py`.

The file models, from the source:
* `reduce_loss_dict` (a pure value-level model and a heap-level model that
  tracks tensor storage, for the mutation claims),
* the loss-history load at the top of `do_train` (the `try/except EOFError`
  around the four `pickle.load` calls),
* the per-iteration history append/dump performed through dynamically built
  `exec` statements,
* the training loop of `do_train` (iteration counting via
  `enumerate(data_loader, start_iter)`, the checkpoint/validation cadence,
  the final checkpoint and the final timing report).

Scalar loss values are modelled as rationals.  Effects of the loop that no
claim is about (scheduler stepping, the actual gradient update, metric
smoothing, log lines and plot rendering) are not given state; the value that
`losses.backward()` receives and the value handed to the metric logger are
recorded in a per-iteration trace record instead. -/

/-- The string `loss_classifier` (history variable and file name, trainer.py line 67). -/
def kLossClassifier : String := "loss_classifier"

/-- The string `loss_box_reg` (history variable and file name, trainer.py line 68). -/
def kLossBoxReg : String := "loss_box_reg"

/-- The string `loss_objectness` (history variable and file name, trainer.py line 69). -/
def kLossObjectness : String := "loss_objectness"

/-- The string `loss_rpn_box_reg` (history variable and file name, trainer.py line 70). -/
def kLossRpnBoxReg : String := "loss_rpn_box_reg"

/-- The string `iteration`, the loop variable of `do_train` (trainer.py line 77). -/
def kIteration : String := "iteration"

/-- The string `loss_mask`, a loss key the model can emit (when mask
prediction is on) that has no initialised history variable. -/
def kLossMask : String := "loss_mask"

/-- The four loss keys for which `do_train` initialises a local history list
(trainer.py lines 67-75).  These are exactly the local-variable names that the
dynamically built `exec('{key}.append(...)')` statements (lines 107-109) can
resolve; any other key makes the `exec` raise a `NameError`. -/
def fixedKeys : List String := [kLossClassifier, kLossBoxReg, kLossObjectness, kLossRpnBoxReg]

/-- State of one persisted history file `./outputs/<key>.p`, distinguished by
what `open(...)` / `pickle.load(...)` would do on it: the file may be absent
(`open` raises `FileNotFoundError`), empty or truncated (`pickle.load` raises
`EOFError`), corrupt in some other way (`pickle.load` raises
`UnpicklingError`), or hold a pickled list of scalars. -/
inductive FileState where
  | missing : FileState
  | truncated : FileState
  | corrupt : FileState
  | ok : List ℚ → FileState
deriving DecidableEq

/-- The Python exceptions that the modelled fragment of `do_train` can raise. -/
inductive PyErr where
  | fileNotFound : PyErr
  | eofError : PyErr
  | unpicklingError : PyErr
  | nameError : String → PyErr
  | unboundLocal : String → PyErr
  | zeroDivision : PyErr
deriving DecidableEq

/-- Durable storage: one `FileState` per loss-key file `./outputs/<key>.p`. -/
abbrev Store := String → FileState

/-- The four local history lists of `do_train`, viewed as a map from the
variable's name to its contents (only names in `fixedKeys` are ever defined). -/
abbrev Histories := String → List ℚ

/-- `pickle.load(open('./outputs/<key>.p', 'rb'))` on a file in the given state. -/
def loadFile : FileState → Except PyErr (List ℚ)
  | FileState.missing => Except.error PyErr.fileNotFound
  | FileState.truncated => Except.error PyErr.eofError
  | FileState.corrupt => Except.error PyErr.unpicklingError
  | FileState.ok l => Except.ok l

/-- The body of the `try:` block at trainer.py lines 66-70: the four history
files are loaded in order; the first raised exception aborts the block. -/
def tryLoadHistories (store : Store) : Except PyErr Histories :=
  match loadFile (store kLossClassifier) with
  | Except.error e => Except.error e
  | Except.ok loss_classifier =>
    match loadFile (store kLossBoxReg) with
    | Except.error e => Except.error e
    | Except.ok loss_box_reg =>
      match loadFile (store kLossObjectness) with
      | Except.error e => Except.error e
      | Except.ok loss_objectness =>
        match loadFile (store kLossRpnBoxReg) with
        | Except.error e => Except.error e
        | Except.ok loss_rpn_box_reg =>
          Except.ok (fun k =>
            if k = kLossClassifier then loss_classifier
            else if k = kLossBoxReg then loss_box_reg
            else if k = kLossObjectness then loss_objectness
            else if k = kLossRpnBoxReg then loss_rpn_box_reg
            else [])

/-- The `try/except EOFError` at trainer.py lines 66-75: only an `EOFError`
is caught, and then all four histories are (re)bound to empty lists; any
other exception propagates out of `do_train`. -/
def loadHistories (store : Store) : Except PyErr Histories :=
  match tryLoadHistories store with
  | Except.ok h => Except.ok h
  | Except.error PyErr.eofError => Except.ok (fun _ => [])
  | Except.error e => Except.error e

/-- `losses = sum(loss for loss in loss_dict.values())` (trainer.py line 89),
for a loss mapping modelled as an insertion-ordered association list. -/
def sumValues (d : List (String × ℚ)) : ℚ := (d.map Prod.snd).sum

/-- Modelled from the spec: the collective `dist.reduce(all_losses, dst=0)`
(trainer.py line 37) is external library code.  Per the spec (section 4.1),
it performs an elementwise sum-reduction of the stacked loss vectors of all
workers, after which rank 0 (and, per the spec's description of the
non-coordinators' buffers, every rank) holds the pre-division sum.  `vecs w`
is the stacked loss vector of worker `w`; `len` is its length. -/
def distReduce (world_size : ℕ) (vecs : ℕ → List ℚ) (len : ℕ) : List ℚ :=
  (List.range len).map (fun i => ((List.range world_size).map (fun w => (vecs w).getD i 0)).sum)

/-- `reduce_loss_dict` (trainer.py lines 21-43), value level.  The ambient
distributed state is passed explicitly: `world_size` (from
`get_world_size()`), `rank` (from `dist.get_rank()`, the rank the call runs
on), and `dicts w`, worker `w`'s loss mapping (identical keys are expected
across workers).  With fewer than two workers the input mapping is returned
unchanged; otherwise keys and values are unzipped in mapping order, the
stacked values are sum-reduced across workers, rank 0 additionally divides by
the worker count, and a new mapping is built by zipping the original key
order with the reduced values.  (Note `torch.stack` would raise on an empty
tensor list; the model leaves that case unconstrained.) -/
def reduce_loss_dict (world_size rank : ℕ) (dicts : ℕ → List (String × ℚ)) :
    List (String × ℚ) :=
  if world_size < 2 then dicts rank
  else
    let loss_names := (dicts rank).map Prod.fst
    let all_losses := (dicts rank).map Prod.snd
    let reduced := distReduce world_size (fun w => (dicts w).map Prod.snd) all_losses.length
    let divided := if rank = 0 then reduced.map (fun v => v / (world_size : ℚ)) else reduced
    loss_names.zip divided

/-- `reduce_loss_dict`, heap level, used for the frame/no-mutation claim.
Each scalar loss tensor is a cell of a heap `ℕ → ℚ`, and the input mapping
binds keys to cell references.  `torch.stack` copies the referenced scalars
into a fresh block of cells starting at `base` (one past the largest input
reference, so the block is disjoint from the input's cells); `dist.reduce`
adds the other workers' contributions (`otherSum i`) to the block in place;
on rank 0 the division happens in place on the block; the returned mapping
binds the original keys to views of the block's cells.  The third component
records whether the cross-process collective was invoked at all. -/
def reduce_loss_dict_heap (world_size rank : ℕ) (otherSum : ℕ → ℚ) (heap : ℕ → ℚ)
    (loss_dict : List (String × ℕ)) : (ℕ → ℚ) × List (String × ℕ) × Bool :=
  if world_size < 2 then (heap, loss_dict, false)
  else
    let loss_names := loss_dict.map Prod.fst
    let refs := loss_dict.map Prod.snd
    let base := refs.foldr max 0 + 1
    let stacked := fun c =>
      if base ≤ c ∧ c < base + refs.length then heap (refs.getD (c - base) 0) else heap c
    let summed := fun c =>
      if base ≤ c ∧ c < base + refs.length then stacked c + otherSum (c - base) else stacked c
    let divided :=
      if rank = 0 then
        fun c => if base ≤ c ∧ c < base + refs.length then summed c / (world_size : ℚ) else summed c
      else summed
    (divided, loss_names.zip ((List.range refs.length).map (fun i => base + i)), true)

/-- Loss mapping replicated identically on every worker, for the C3 witness. -/
def dictsW : ℕ → List (String × ℚ) := fun _ => [(kLossClassifier, 1)]

/-- The environment a `do_train` run executes in: the distributed world
(`world_size`, this process's `rank`), the per-iteration loss mappings of
every worker (`lossAt w i` stands for the result of `model(images, targets)`
on worker `w` at loop counter `i`), the checkpoint period, and
`max_iter = len(data_loader)` (trainer.py line 61).  Note that
`enumerate(data_loader, start_iter)` only offsets the counter: the loop body
runs exactly `max_iter` times regardless of `start_iter`. -/
structure TrainEnv where
  world_size : ℕ
  rank : ℕ
  lossAt : ℕ → ℕ → List (String × ℚ)
  checkpoint_period : ℕ
  max_iter : ℕ

/-- `loss_dict_reduced = reduce_loss_dict(loss_dict)` (trainer.py line 92) at
loop counter `i`, on this process's rank. -/
def reducedAt (env : TrainEnv) (i : ℕ) : List (String × ℚ) :=
  reduce_loss_dict env.world_size env.rank (fun w => env.lossAt w i)

/-- Observable trace of one loop iteration: the counter value, the scalar
handed to `losses.backward()` (line 97, via line 89), the reduced total
handed to the metric logger (line 94, via line 93), and whether this
iteration saved a checkpoint / ran validation (lines 141-143), together with
the `arguments['iteration']` value passed to `checkpointer.save` when it did. -/
structure IterRecord where
  iteration : ℕ
  backwardLoss : ℚ
  loggedLoss : ℚ
  checkpointed : Bool
  savedIteration : Option ℕ
  validated : Bool
deriving DecidableEq, Inhabited

/-- Mutable state threaded through the loop: the four history lists (lines
67-75, updated by the `exec` appends of line 108), the durable store (updated
by the `exec` dumps of line 109), the `arguments['iteration']` entry (line
79), and the loop variable `iteration`, `none` while still unbound. -/
structure LoopState where
  histories : Histories
  store : Store
  argumentsIteration : ℕ
  lastIteration : Option ℕ

/-- One step of the `for key in loss_dict_reduced.keys():` loop at trainer.py
lines 107-109: `exec('{key}.append(...)')` resolves the name `key`; only the
four names of `fixedKeys` are bound local variables, so any other key raises
a `NameError`.  On success the history list named `k` is appended to, and
`exec('pickle.dump({key}, ...)')` rewrites that key's file with the whole
updated list. -/
def appendKey (reduced : List (String × ℚ)) (hs : Histories × Store) (k : String) :
    Histories × Store :=
  (fun k2 => if k2 = k then hs.1 k ++ [(List.lookup k reduced).getD 0] else hs.1 k2,
   fun k2 => if k2 = k then FileState.ok (hs.1 k ++ [(List.lookup k reduced).getD 0])
             else hs.2 k2)

/-- `persistKey`: the `exec` pair for one key, failing with `NameError` when
the key is not one of the four bound history variables. -/
def persistKey (reduced : List (String × ℚ)) (hs : Histories × Store) (k : String) :
    Except PyErr (Histories × Store) :=
  if k ∈ fixedKeys then Except.ok (appendKey reduced hs k)
  else Except.error (PyErr.nameError k)

/-- The whole `for key in loss_dict_reduced.keys():` loop of lines 107-109,
iterating the keys in mapping order; the first failing key aborts. -/
def persistLoop (reduced : List (String × ℚ)) :
    List String → Histories × Store → Except PyErr (Histories × Store)
  | [], hs => Except.ok hs
  | k :: ks, hs =>
    match persistKey reduced hs k with
    | Except.error e => Except.error e
    | Except.ok hs1 => persistLoop reduced ks hs1

/-- History persistence for one iteration (trainer.py lines 107-109). -/
def persistStep (h : Histories) (s : Store) (reduced : List (String × ℚ)) :
    Except PyErr (Histories × Store) :=
  persistLoop reduced (reduced.map Prod.fst) (h, s)

/-- The trace record produced at loop counter `i` (see `IterRecord`): the
checkpoint/validation flag is `iteration % checkpoint_period == 0 and
iteration > 0` (trainer.py line 141), and a save passes
`arguments['iteration'] = i` (lines 79 and 142). -/
def iterRecordAt (env : TrainEnv) (i : ℕ) : IterRecord :=
  { iteration := i
    backwardLoss := sumValues (env.lossAt env.rank i)
    loggedLoss := sumValues (reducedAt env i)
    checkpointed := decide (i % env.checkpoint_period = 0) && decide (0 < i)
    savedIteration :=
      if (decide (i % env.checkpoint_period = 0) && decide (0 < i)) = true then some i
      else none
    validated := decide (i % env.checkpoint_period = 0) && decide (0 < i) }

/-- One iteration of the training loop (trainer.py lines 77-143) at loop
counter `i`: set `arguments['iteration'] = i` (line 79), compute the loss
mapping and its sum (lines 87-89), reduce for logging (lines 92-94), run the
per-key history append/dump (lines 107-109, which precede the checkpoint
test and can raise `NameError`), then test the checkpoint cadence (line 141;
Python's `%` raises `ZeroDivisionError` when `checkpoint_period` is 0). -/
def iterStep (env : TrainEnv) (st : LoopState) (i : ℕ) :
    Except PyErr (LoopState × IterRecord) :=
  match persistStep st.histories st.store (reducedAt env i) with
  | Except.error e => Except.error e
  | Except.ok hs =>
    if env.checkpoint_period = 0 then Except.error PyErr.zeroDivision
    else
      Except.ok
        ({ histories := hs.1, store := hs.2, argumentsIteration := i, lastIteration := some i },
         iterRecordAt env i)

/-- The `for iteration, (images, targets, _) in enumerate(data_loader,
start_iter):` loop (trainer.py line 77): `fuel` iterations remain (the data
loader's length bounds the body's executions), `i` is the current counter. -/
def runLoop (env : TrainEnv) :
    ℕ → ℕ → LoopState → Except PyErr (LoopState × List IterRecord)
  | _, 0, st => Except.ok (st, [])
  | i, fuel + 1, st =>
    match iterStep env st i with
    | Except.error e => Except.error e
    | Except.ok (st1, r) =>
      match runLoop env (i + 1) fuel st1 with
      | Except.error e => Except.error e
      | Except.ok (st2, rs) => Except.ok (st2, r :: rs)

/-- Result of a completed `do_train` run: the per-iteration trace, the tag of
the final `checkpointer.save` (line 147, the last loop counter value), the
`arguments['iteration']` value persisted with it, and the final loop state. -/
structure DoTrainResult where
  records : List IterRecord
  finalCheckpointIteration : ℕ
  finalSavedArguments : ℕ
  finalState : LoopState

/-- `do_train` (trainer.py lines 46-154), restricted to the modelled state:
load the histories (lines 66-75, possibly raising), run the loop from
`start_iter = arguments['iteration']` (lines 62, 77) for `max_iter` bodies,
then save the final checkpoint tagged with the loop variable `iteration`
(line 147; if the loop never ran, `iteration` was never bound and Python
raises an unbound-local error there), and finally divide the total time by
`max_iter` in the timing report (line 152, a `ZeroDivisionError` if
`max_iter` is 0 — unreachable, since the final save fails first in that
case). -/
def do_train (env : TrainEnv) (argumentsIteration : ℕ) (store0 : Store) :
    Except PyErr DoTrainResult :=
  match loadHistories store0 with
  | Except.error e => Except.error e
  | Except.ok h0 =>
    match runLoop env argumentsIteration env.max_iter
        { histories := h0, store := store0,
          argumentsIteration := argumentsIteration, lastIteration := none } with
    | Except.error e => Except.error e
    | Except.ok (st, rs) =>
      match st.lastIteration with
      | none => Except.error (PyErr.unboundLocal kIteration)
      | some last =>
        if env.max_iter = 0 then Except.error PyErr.zeroDivision
        else
          Except.ok
            { records := rs, finalCheckpointIteration := last,
              finalSavedArguments := st.argumentsIteration, finalState := st }

/-- Single-worker environment with three iterations, constant classifier
loss, checkpoint period 2; used by witnesses and counterexamples. -/
def envA : TrainEnv :=
  { world_size := 1, rank := 0, lossAt := fun _ _ => [(kLossClassifier, 1)],
    checkpoint_period := 2, max_iter := 3 }

/-- The same environment with an empty data loader (`max_iter = 0`). -/
def envZero : TrainEnv :=
  { world_size := 1, rank := 0, lossAt := fun _ _ => [(kLossClassifier, 1)],
    checkpoint_period := 2, max_iter := 0 }

/-- Single-worker environment whose model emits the key `loss_mask`, which is
outside the four initialised history variables. -/
def envMask : TrainEnv :=
  { world_size := 1, rank := 0, lossAt := fun _ _ => [(kLossMask, 1)],
    checkpoint_period := 2, max_iter := 1 }

/-- A store whose four history files all exist but are empty/truncated, so
the initial load yields empty histories. -/
def storeT : Store := fun _ => FileState.truncated

/-- A loop state with empty histories, truncated files, counter 0. -/
def stA : LoopState :=
  { histories := fun _ => [], store := storeT, argumentsIteration := 0, lastIteration := none }

/-- Whether an exception-carrying computation succeeded. -/
def exceptIsOk {ε α : Type} : Except ε α → Bool
  | Except.ok _ => true
  | Except.error _ => false

/-- Every member of a list of naturals is bounded by `foldr max 0`. -/
theorem mem_le_foldr_max (l : List ℕ) (a : ℕ) (h : a ∈ l) : a ≤ l.foldr max 0 := by
  induction l with
  | nil => cases h
  | cons b t ih =>
    rcases List.mem_cons.mp h with rfl | ht
    · simp only [List.foldr_cons]
      exact le_max_left a (t.foldr max 0)
    · simpa using le_trans (ih ht) (le_max_right b (t.foldr max 0))

/-- C6: for worker count 1, `reduce_loss_dict` returns an object equal to its
input loss mapping (the `world_size < 2` early return at trainer.py lines
27-29), both at value level and at heap level; the heap is untouched and the
communication flag is `false`, i.e. no cross-process call is made. -/
theorem reduce_loss_dict_single_worker (rank : ℕ) (dicts : ℕ → List (String × ℚ))
    (otherSum : ℕ → ℚ) (heap : ℕ → ℚ) (loss_dict : List (String × ℕ)) :
    reduce_loss_dict 1 rank dicts = dicts rank ∧
    reduce_loss_dict_heap 1 rank otherSum heap loss_dict = (heap, loss_dict, false) :=
  ⟨rfl, rfl⟩

/-- C7: `reduce_loss_dict` does not mutate its input.  At heap level, every
cell referenced by the input mapping holds the same value after the call as
before: `torch.stack` copies into a fresh block and all in-place operations
(`dist.reduce`, `/=`) touch only that block. -/
theorem reduce_loss_dict_no_mutation (world_size rank : ℕ) (otherSum : ℕ → ℚ)
    (heap : ℕ → ℚ) (loss_dict : List (String × ℕ)) :
    ∀ p ∈ loss_dict,
      (reduce_loss_dict_heap world_size rank otherSum heap loss_dict).1 p.2 = heap p.2 := by
  intro p hp
  by_cases hws : world_size < 2
  · simp [reduce_loss_dict_heap, hws]
  · have href : p.2 ≤ (loss_dict.map Prod.snd).foldr max 0 :=
      mem_le_foldr_max _ _ (List.mem_map_of_mem Prod.snd hp)
    have hcond : ¬((loss_dict.map Prod.snd).foldr max 0 + 1 ≤ p.2 ∧
        p.2 < (loss_dict.map Prod.snd).foldr max 0 + 1 + loss_dict.length) := by
      omega
    by_cases hr : rank = 0 <;> simp [reduce_loss_dict_heap, hws, hr, hcond]

/-- C7 witness: no-mutation at a concrete heap and mapping. -/
theorem reduce_loss_dict_no_mutation_witness :
    (reduce_loss_dict_heap 2 0 (fun _ => 5) (fun n => (n : ℚ)) [(kLossClassifier, 3)]).1 3
      = (fun n => (n : ℚ)) 3 :=
  reduce_loss_dict_no_mutation 2 0 (fun _ => 5) (fun n => (n : ℚ)) [(kLossClassifier, 3)]
    (kLossClassifier, 3) (by decide)

/-- Length of `distReduce`. -/
theorem distReduce_length (world_size : ℕ) (vecs : ℕ → List ℚ) (len : ℕ) :
    (distReduce world_size vecs len).length = len := by
  simp [distReduce]

/-- Entry `i` of `distReduce` is the sum over the workers of their `i`-th value. -/
theorem distReduce_getD (world_size : ℕ) (vecs : ℕ → List ℚ) (len i : ℕ) (hi : i < len) :
    (distReduce world_size vecs len).getD i 0
      = ((List.range world_size).map (fun w => (vecs w).getD i 0)).sum := by
  have h1 : i < (distReduce world_size vecs len).length := by
    rw [distReduce_length]; exact hi
  rw [List.getD_eq_getElem _ _ h1]
  simp [distReduce]

/-- C3: for every worker count ≥ 2 and identical (nonempty) key lists on all
workers, `reduce_loss_dict` (trainer.py lines 21-43) returns a mapping with
exactly the input's keys in the input's order on every rank; position `i` of
the result holds, on rank 0, the elementwise average over all workers of the
values at position `i`, and on any other rank the pre-division sum.
(Nonemptiness reflects that `torch.stack` rejects an empty tensor list.) -/
theorem reduce_loss_dict_averages (world_size : ℕ) (keys : List String)
    (dicts : ℕ → List (String × ℚ)) (hws : 2 ≤ world_size)
    (_hne : keys ≠ []) (hkeys : ∀ w, (dicts w).map Prod.fst = keys) :
    (∀ rank, (reduce_loss_dict world_size rank dicts).map Prod.fst = keys) ∧
    (∀ i, i < keys.length →
      ((reduce_loss_dict world_size 0 dicts).map Prod.snd).getD i 0
        = ((List.range world_size).map
            (fun w => ((dicts w).map Prod.snd).getD i 0)).sum / (world_size : ℚ)) ∧
    (∀ rank, rank ≠ 0 → ∀ i, i < keys.length →
      ((reduce_loss_dict world_size rank dicts).map Prod.snd).getD i 0
        = ((List.range world_size).map
            (fun w => ((dicts w).map Prod.snd).getD i 0)).sum) := by
  have hnot : ¬world_size < 2 := by omega
  have hvalslen : ∀ r, ((dicts r).map Prod.snd).length = keys.length := by
    intro r
    rw [List.length_map, ← List.length_map (dicts r) Prod.fst, hkeys r]
  have hnameslen : ∀ r, ((dicts r).map Prod.fst).length = keys.length := by
    intro r; rw [hkeys r]
  have hzero : reduce_loss_dict world_size 0 dicts
      = ((dicts 0).map Prod.fst).zip
          ((distReduce world_size (fun w => (dicts w).map Prod.snd)
            ((dicts 0).map Prod.snd).length).map (fun v => v / (world_size : ℚ))) := by
    unfold reduce_loss_dict
    rw [if_neg hnot]
    rfl
  have hnonzero : ∀ rank, rank ≠ 0 → reduce_loss_dict world_size rank dicts
      = ((dicts rank).map Prod.fst).zip
          (distReduce world_size (fun w => (dicts w).map Prod.snd)
            ((dicts rank).map Prod.snd).length) := by
    intro rank hr
    unfold reduce_loss_dict
    rw [if_neg hnot]
    simp only [if_neg hr]
  refine ⟨?_, ?_, ?_⟩
  · intro rank
    by_cases hr : rank = 0
    · subst hr
      rw [hzero, List.map_fst_zip _ _ (by simp [distReduce_length, hvalslen, hnameslen])]
      exact hkeys 0
    · rw [hnonzero rank hr,
        List.map_fst_zip _ _ (by simp [distReduce_length, hvalslen, hnameslen])]
      exact hkeys rank
  · intro i hi
    rw [hzero, List.map_snd_zip _ _ (by simp [distReduce_length, hvalslen, hnameslen])]
    have h2 : i < (distReduce world_size (fun w => (dicts w).map Prod.snd)
        ((dicts 0).map Prod.snd).length).length := by
      rw [distReduce_length, hvalslen]; exact hi
    have h1 : i < ((distReduce world_size (fun w => (dicts w).map Prod.snd)
        ((dicts 0).map Prod.snd).length).map (fun v => v / (world_size : ℚ))).length := by
      rw [List.length_map]; exact h2
    rw [List.getD_eq_getElem _ _ h1, List.getElem_map, ← List.getD_eq_getElem _ _ h2,
      distReduce_getD _ _ _ _ (by rw [hvalslen]; exact hi)]
  · intro rank hr i hi
    rw [hnonzero rank hr,
      List.map_snd_zip _ _ (by simp [distReduce_length, hvalslen, hnameslen])]
    exact distReduce_getD _ _ _ _ (by rw [hvalslen]; exact hi)

/-- C3 witness: with two workers both holding the value 1, the coordinator
gets the average 1 and rank 1 the pre-division sum 2; keys are preserved. -/
theorem reduce_loss_dict_averages_witness :
    ((reduce_loss_dict 2 0 dictsW).map Prod.snd).getD 0 0 = 1 ∧
    ((reduce_loss_dict 2 1 dictsW).map Prod.snd).getD 0 0 = 2 ∧
    (reduce_loss_dict 2 0 dictsW).map Prod.fst = [kLossClassifier] := by
  have h := reduce_loss_dict_averages 2 [kLossClassifier] dictsW (by omega)
    (by simp) (fun w => rfl)
  refine ⟨?_, ?_, h.1 0⟩
  · have hv := h.2.1 0 (by simp)
    rw [hv]
    simp [dictsW, List.range_succ]
  · have hv := h.2.2 1 (by simp) 0 (by simp)
    rw [hv]
    simp [dictsW, List.range_succ]
    norm_num

/-- If every key of the list is one of the four bound history names, the
per-key persistence loop succeeds. -/
theorem persistLoop_ok (reduced : List (String × ℚ)) :
    ∀ (l : List String) (hs : Histories × Store),
      (∀ k ∈ l, k ∈ fixedKeys) →
      ∃ hs1, persistLoop reduced l hs = Except.ok hs1 := by
  intro l
  induction l with
  | nil => intro hs _; exact ⟨hs, rfl⟩
  | cons k0 t ih =>
    intro hs hsub
    have hk0 : k0 ∈ fixedKeys := hsub k0 (List.mem_cons_self k0 t)
    obtain ⟨hs1, hrec⟩ :=
      ih (appendKey reduced hs k0) (fun k hk => hsub k (List.mem_cons_of_mem k0 hk))
    exact ⟨hs1, by simp [persistLoop, persistKey, hk0, hrec]⟩

/-- Full characterisation of a successful persistence loop over a
duplicate-free key list: each listed key's history gains exactly one entry
(the reduced value looked up under that key) and its file is rewritten with
the new list; everything else is untouched. -/
theorem persistLoop_spec (reduced : List (String × ℚ)) :
    ∀ (l : List String) (hs : Histories × Store), l.Nodup →
      (∀ k ∈ l, k ∈ fixedKeys) →
      ∃ hs1, persistLoop reduced l hs = Except.ok hs1 ∧
        (∀ k ∈ l, hs1.1 k = hs.1 k ++ [(List.lookup k reduced).getD 0] ∧
          hs1.2 k = FileState.ok (hs1.1 k)) ∧
        (∀ k, k ∉ l → hs1.1 k = hs.1 k ∧ hs1.2 k = hs.2 k) := by
  intro l
  induction l with
  | nil =>
    intro hs _ _
    exact ⟨hs, rfl, by simp, fun k _ => ⟨rfl, rfl⟩⟩
  | cons k0 t ih =>
    intro hs hnd hsub
    have hk0 : k0 ∈ fixedKeys := hsub k0 (List.mem_cons_self k0 t)
    have hk0nt : k0 ∉ t := (List.nodup_cons.mp hnd).1
    obtain ⟨hs1, hrec, hin, hout⟩ :=
      ih (appendKey reduced hs k0) (List.nodup_cons.mp hnd).2
        (fun k hk => hsub k (List.mem_cons_of_mem k0 hk))
    refine ⟨hs1, by simp [persistLoop, persistKey, hk0, hrec], ?_, ?_⟩
    · intro k hk
      rcases List.mem_cons.mp hk with rfl | hkt
      · obtain ⟨h1, h2⟩ := hout k hk0nt
        refine ⟨?_, ?_⟩
        · rw [h1]; simp [appendKey]
        · rw [h2, h1]; simp [appendKey]
      · obtain ⟨h1, h2⟩ := hin k hkt
        have hne : k ≠ k0 := fun he => hk0nt (he ▸ hkt)
        refine ⟨?_, h2⟩
        rw [h1]; simp [appendKey, hne]
    · intro k hk
      have hne : k ≠ k0 := fun he => hk (he ▸ List.mem_cons_self k0 t)
      have hnt : k ∉ t := fun ht => hk (List.mem_cons_of_mem k0 ht)
      obtain ⟨h1, h2⟩ := hout k hnt
      exact ⟨by rw [h1]; simp [appendKey, hne], by rw [h2]; simp [appendKey, hne]⟩

/-- If some key of the list is not a bound history name, the persistence
loop aborts with a `NameError` on such a key. -/
theorem persistLoop_nameError (reduced : List (String × ℚ)) :
    ∀ (l : List String) (hs : Histories × Store),
      (∃ k ∈ l, k ∉ fixedKeys) →
      ∃ k, k ∉ fixedKeys ∧ persistLoop reduced l hs = Except.error (PyErr.nameError k) := by
  intro l
  induction l with
  | nil =>
    intro hs h
    obtain ⟨k, hk, _⟩ := h
    cases hk
  | cons k0 t ih =>
    intro hs h
    by_cases hk0 : k0 ∈ fixedKeys
    · have hbad : ∃ k ∈ t, k ∉ fixedKeys := by
        obtain ⟨k, hk, hnf⟩ := h
        rcases List.mem_cons.mp hk with rfl | hkt
        · exact absurd hk0 hnf
        · exact ⟨k, hkt, hnf⟩
      obtain ⟨k, hknf, hrec⟩ := ih (appendKey reduced hs k0) hbad
      exact ⟨k, hknf, by simp [persistLoop, persistKey, hk0, hrec]⟩
    · exact ⟨k0, hk0, by simp [persistLoop, persistKey, hk0]⟩

/-- Peeling the first element off a shifted `range`-map. -/
theorem range_map_shift {α : Type} (g : ℕ → α) (n i : ℕ) :
    (List.range (n + 1)).map (fun j => g (i + j))
      = g i :: (List.range n).map (fun j => g (i + 1 + j)) := by
  rw [List.range_succ_eq_map, List.map_cons, List.map_map]
  refine congrArg₂ _ (by simp) ?_
  apply List.map_congr_left
  intro a _
  simp only [Function.comp_apply]
  exact congrArg g (by omega)

/-- A successful `iterStep`'s trace record is `iterRecordAt`, and the state
advances to the persisted histories/store with the counter recorded. -/
theorem iterStep_ok_record (env : TrainEnv) (st : LoopState) (i : ℕ)
    (st1 : LoopState) (r : IterRecord)
    (h : iterStep env st i = Except.ok (st1, r)) : r = iterRecordAt env i := by
  unfold iterStep at h
  cases hps : persistStep st.histories st.store (reducedAt env i) with
  | error e => rw [hps] at h; cases h
  | ok hs =>
    rw [hps] at h
    by_cases hp : env.checkpoint_period = 0
    · simp [hp] at h
    · simp [hp] at h
      exact h.2.symm

/-- Characterisation of a run of the training loop in which every reduced
key is one of the four bound history names: the loop succeeds, produces one
trace record per iteration (`iterRecordAt` at counters `i, i+1, …`), and ends
with the loop variable and `arguments['iteration']` at the last counter. -/
theorem runLoop_records (env : TrainEnv) (hP : env.checkpoint_period ≠ 0) :
    ∀ (fuel i : ℕ) (st : LoopState),
      (∀ j, j < fuel → ∀ k ∈ (reducedAt env (i + j)).map Prod.fst, k ∈ fixedKeys) →
      ∃ st2 rs, runLoop env i fuel st = Except.ok (st2, rs) ∧
        rs.length = fuel ∧
        (∀ j, j < fuel → rs.getD j default = iterRecordAt env (i + j)) ∧
        (fuel = 0 → st2 = st) ∧
        (0 < fuel → st2.lastIteration = some (i + fuel - 1) ∧
          st2.argumentsIteration = i + fuel - 1) := by
  intro fuel
  induction fuel with
  | zero =>
    intro i st _
    exact ⟨st, [], rfl, rfl, fun j hj => absurd hj (Nat.not_lt_zero j),
      fun _ => rfl, fun h => absurd h (by omega)⟩
  | succ f ih =>
    intro i st hkeys
    have hgood0 : ∀ k ∈ (reducedAt env i).map Prod.fst, k ∈ fixedKeys := by
      have h := hkeys 0 (by omega)
      simpa using h
    obtain ⟨hs1, hps⟩ := persistLoop_ok (reducedAt env i) _ (st.histories, st.store) hgood0
    have hstep : iterStep env st i = Except.ok
        ({ histories := hs1.1, store := hs1.2,
           argumentsIteration := i, lastIteration := some i },
         iterRecordAt env i) := by
      simp [iterStep, persistStep, hps, hP]
    obtain ⟨st2, rs, hrun, hlen, hrec, hz, hpos⟩ :=
      ih (i + 1)
        { histories := hs1.1, store := hs1.2,
          argumentsIteration := i, lastIteration := some i }
        (fun j hj => by
          have h := hkeys (j + 1) (by omega)
          rwa [show i + (j + 1) = i + 1 + j by omega] at h)
    refine ⟨st2, iterRecordAt env i :: rs, ?_, ?_, ?_, ?_, ?_⟩
    · simp [runLoop, hstep, hrun]
    · simp [hlen]
    · intro j hj
      cases j with
      | zero => simp
      | succ j1 =>
        have h := hrec j1 (by omega)
        rw [List.getD_cons_succ, h]
        exact congrArg (iterRecordAt env) (by omega)
    · intro h; exact absurd h (by omega)
    · intro _
      rcases Nat.eq_zero_or_pos f with h0 | hfpos
      · subst h0
        rw [hz rfl]
        exact ⟨by simp, by simp⟩
      · obtain ⟨hl, ha⟩ := hpos hfpos
        refine ⟨?_, by rw [ha]; omega⟩
        rw [hl]
        exact congrArg some (by omega)

/-- Characterisation of the histories and the durable store across a run of
the training loop whose reduced mappings all carry the same duplicate-free
key list `ks` of bound history names: the loop succeeds, each key's history
grows by exactly one entry per iteration, in iteration order, and after at
least one iteration each key's file holds exactly that key's history. -/
theorem runLoop_histories (env : TrainEnv) (hP : env.checkpoint_period ≠ 0)
    (ks : List String) (hnd : ks.Nodup) (hsub : ∀ k ∈ ks, k ∈ fixedKeys) :
    ∀ (fuel i : ℕ) (st : LoopState),
      (∀ j, j < fuel → (reducedAt env (i + j)).map Prod.fst = ks) →
      ∃ st2 rs, runLoop env i fuel st = Except.ok (st2, rs) ∧
        (∀ k ∈ ks, st2.histories k
          = st.histories k
            ++ (List.range fuel).map (fun j => (List.lookup k (reducedAt env (i + j))).getD 0)) ∧
        (∀ k ∈ ks, 0 < fuel → st2.store k = FileState.ok (st2.histories k)) ∧
        (fuel = 0 → st2 = st) ∧
        (0 < fuel → st2.lastIteration = some (i + fuel - 1)) := by
  intro fuel
  induction fuel with
  | zero =>
    intro i st _
    exact ⟨st, [], rfl, fun k _ => by simp, fun k _ h => absurd h (by omega),
      fun _ => rfl, fun h => absurd h (by omega)⟩
  | succ f ih =>
    intro i st hkeys
    have hks0 : (reducedAt env i).map Prod.fst = ks := by
      have h := hkeys 0 (by omega)
      simpa using h
    obtain ⟨hs1, hps, hin, hout⟩ :=
      persistLoop_spec (reducedAt env i) ks (st.histories, st.store) hnd hsub
    have hps' : persistStep st.histories st.store (reducedAt env i) = Except.ok hs1 := by
      rw [persistStep, hks0]
      exact hps
    have hstep : iterStep env st i = Except.ok
        ({ histories := hs1.1, store := hs1.2,
           argumentsIteration := i, lastIteration := some i },
         iterRecordAt env i) := by
      simp [iterStep, hps', hP]
    obtain ⟨st2, rs, hrun, hhist, hstore, hz, hlast⟩ :=
      ih (i + 1)
        { histories := hs1.1, store := hs1.2,
          argumentsIteration := i, lastIteration := some i }
        (fun j hj => by
          have h := hkeys (j + 1) (by omega)
          rwa [show i + (j + 1) = i + 1 + j by omega] at h)
    refine ⟨st2, iterRecordAt env i :: rs, by simp [runLoop, hstep, hrun], ?_, ?_, ?_, ?_⟩
    · intro k hk
      rw [hhist k hk]
      show hs1.1 k ++ _ = _
      rw [(hin k hk).1,
        range_map_shift (fun m => (List.lookup k (reducedAt env m)).getD 0) f i]
      simp
    · intro k hk _
      rcases Nat.eq_zero_or_pos f with h0 | hfpos
      · subst h0
        rw [hz rfl]
        show hs1.2 k = FileState.ok (hs1.1 k)
        exact (hin k hk).2
      · exact hstore k hk hfpos
    · intro h; exact absurd h (by omega)
    · intro _
      rcases Nat.eq_zero_or_pos f with h0 | hfpos
      · subst h0
        rw [hz rfl]
        exact congrArg some (by omega)
      · rw [hlast hfpos]
        exact congrArg some (by omega)

/-- If every iteration before the `j`-th carries only bound history keys and
the `j`-th iteration's reduced mapping contains a key outside the four bound
names, the loop aborts with a `NameError` on a key outside the bound names. -/
theorem runLoop_nameError (env : TrainEnv) (hP : env.checkpoint_period ≠ 0) :
    ∀ (j fuel i : ℕ) (st : LoopState), j < fuel →
      (∀ j1, j1 < j → ∀ k ∈ (reducedAt env (i + j1)).map Prod.fst, k ∈ fixedKeys) →
      (∃ k ∈ (reducedAt env (i + j)).map Prod.fst, k ∉ fixedKeys) →
      ∃ k, k ∉ fixedKeys ∧ runLoop env i fuel st = Except.error (PyErr.nameError k) := by
  intro j
  induction j with
  | zero =>
    intro fuel i st hj hgood hbad
    obtain ⟨f, rfl⟩ : ∃ f, fuel = f + 1 := ⟨fuel - 1, by omega⟩
    have hbad0 : ∃ k ∈ (reducedAt env i).map Prod.fst, k ∉ fixedKeys := by
      simpa using hbad
    obtain ⟨k, hknf, herr⟩ :=
      persistLoop_nameError (reducedAt env i) _ (st.histories, st.store) hbad0
    exact ⟨k, hknf, by simp [runLoop, iterStep, persistStep, herr]⟩
  | succ j1 ih =>
    intro fuel i st hj hgood hbad
    obtain ⟨f, rfl⟩ : ∃ f, fuel = f + 1 := ⟨fuel - 1, by omega⟩
    have hgood0 : ∀ k ∈ (reducedAt env i).map Prod.fst, k ∈ fixedKeys := by
      have h := hgood 0 (by omega)
      simpa using h
    obtain ⟨hs1, hps⟩ := persistLoop_ok (reducedAt env i) _ (st.histories, st.store) hgood0
    obtain ⟨k, hknf, hrec⟩ :=
      ih f (i + 1)
        { histories := hs1.1, store := hs1.2,
          argumentsIteration := i, lastIteration := some i }
        (by omega)
        (fun j2 hj2 => by
          have h := hgood (j2 + 1) (by omega)
          rwa [show i + (j2 + 1) = i + 1 + j2 by omega] at h)
        (by rwa [show i + (j1 + 1) = i + 1 + j1 by omega] at hbad)
    exact ⟨k, hknf, by simp [runLoop, iterStep, persistStep, hps, hP, hrec]⟩

/-- The checkpoint test of trainer.py line 141 holds exactly at positive
multiples of the checkpoint period. -/
theorem mod_and_pos_iff (P i : ℕ) : (i % P = 0 ∧ 0 < i) ↔ (0 < i ∧ P ∣ i) := by
  constructor
  · rintro ⟨h1, h2⟩
    exact ⟨h2, Nat.dvd_of_mod_eq_zero h1⟩
  · rintro ⟨h1, ⟨c, rfl⟩⟩
    exact ⟨Nat.mul_mod_right P c, h1⟩

/-- C4: starting from iteration 0 with `checkpoint_period = P > 0` and
`max_iter > 0` iterations (all of whose loss keys have bound history
variables, and with loadable history files), the run completes; an in-loop
checkpoint save and a validation pass are triggered at iteration `i` exactly
when `i` is a positive multiple of `P` (trainer.py lines 141-143, both under
the same guard), each such save persisting `arguments['iteration'] = i`, and
the mandatory final checkpoint (line 147, to which no validation call is
attached) is tagged with iteration `max_iter - 1`. -/
theorem checkpoint_validation_cadence (env : TrainEnv) (store0 : Store) (h0 : Histories)
    (hload : loadHistories store0 = Except.ok h0)
    (hP : 0 < env.checkpoint_period) (hM : 0 < env.max_iter)
    (hkeys : ∀ i, i < env.max_iter → ∀ k ∈ (reducedAt env i).map Prod.fst, k ∈ fixedKeys) :
    ∃ res, do_train env 0 store0 = Except.ok res ∧
      res.records.length = env.max_iter ∧
      (∀ i, i < env.max_iter →
        (res.records.getD i default).iteration = i ∧
        ((res.records.getD i default).checkpointed = true ↔
          (0 < i ∧ env.checkpoint_period ∣ i)) ∧
        ((res.records.getD i default).validated = true ↔
          (0 < i ∧ env.checkpoint_period ∣ i)) ∧
        ((res.records.getD i default).checkpointed = true →
          (res.records.getD i default).savedIteration = some i)) ∧
      res.finalCheckpointIteration = env.max_iter - 1 ∧
      res.finalSavedArguments = env.max_iter - 1 := by
  obtain ⟨st2, rs, hrun, hlen, hrec, _, hpos⟩ :=
    runLoop_records env (by omega) env.max_iter 0
      { histories := h0, store := store0, argumentsIteration := 0, lastIteration := none }
      (fun j hj => by
        have h := hkeys j hj
        simpa using h)
  obtain ⟨hlast, harg⟩ := hpos hM
  have hdo : do_train env 0 store0 = Except.ok
      { records := rs, finalCheckpointIteration := 0 + env.max_iter - 1,
        finalSavedArguments := st2.argumentsIteration, finalState := st2 } := by
    simp [do_train, hload, hrun, hlast, show ¬env.max_iter = 0 by omega]
  refine ⟨_, hdo, hlen, ?_, by simp only []; omega, by simp only []; rw [harg]; omega⟩
  intro i hi
  have hri := hrec i hi
  rw [show (0 : ℕ) + i = i by omega] at hri
  rw [hri]
  refine ⟨rfl, ?_, ?_, ?_⟩
  · simp only [iterRecordAt, Bool.and_eq_true, decide_eq_true_eq]
    exact mod_and_pos_iff env.checkpoint_period i
  · simp only [iterRecordAt, Bool.and_eq_true, decide_eq_true_eq]
    exact mod_and_pos_iff env.checkpoint_period i
  · intro hc
    simp only [iterRecordAt] at hc ⊢
    rw [if_pos hc]

/-- C4 witness: a concrete three-iteration single-worker run with period 2. -/
theorem checkpoint_validation_cadence_witness :
    ∃ res, do_train envA 0 storeT = Except.ok res ∧
      res.records.length = envA.max_iter ∧
      (∀ i, i < envA.max_iter →
        (res.records.getD i default).iteration = i ∧
        ((res.records.getD i default).checkpointed = true ↔
          (0 < i ∧ envA.checkpoint_period ∣ i)) ∧
        ((res.records.getD i default).validated = true ↔
          (0 < i ∧ envA.checkpoint_period ∣ i)) ∧
        ((res.records.getD i default).checkpointed = true →
          (res.records.getD i default).savedIteration = some i)) ∧
      res.finalCheckpointIteration = envA.max_iter - 1 ∧
      res.finalSavedArguments = envA.max_iter - 1 :=
  checkpoint_validation_cadence envA storeT (fun _ => []) rfl (by decide) (by decide)
    (by decide)

/-- C1 counterexample: in a concrete run (`envA`, period 2, three
iterations starting at 0) the checkpoint taken at iteration 2 persists
`arguments['iteration'] = 2`; restarting `do_train` with that restored state
(`start_iter = 2`) executes iteration 2 first — not iteration 3 — so the
checkpointed iteration is re-executed, contradicting the claim. -/
theorem checkpoint_resume_counterexample :
    (match do_train envA 0 storeT with
     | Except.ok r => (r.records.getD 2 default).savedIteration
     | Except.error _ => none) = some 2 ∧
    (match do_train envA 2 storeT with
     | Except.ok r => some (r.records.getD 0 default).iteration
     | Except.error _ => none) = some 2 ∧
    (match do_train envA 2 storeT with
     | Except.ok r => some (r.records.getD 0 default).iteration
     | Except.error _ => none) ≠ some 3 := by
  refine ⟨by decide, by decide, by decide⟩

/-- C1 as amended: a checkpoint saved in the loop at iteration `N` persists
`arguments['iteration'] = N` (not `N + 1`), and a restart from that state
resumes with iteration `N` as the first executed iteration, re-executing the
checkpointed iteration (trainer.py lines 62, 77, 79, 141-142: the saved
counter is not incremented, and `enumerate(data_loader, start_iter)` starts
counting at the restored value). -/
theorem checkpoint_resume_reexecutes (env : TrainEnv) (store0 : Store) (h0 : Histories)
    (N : ℕ) (hload : loadHistories store0 = Except.ok h0)
    (hP : 0 < env.checkpoint_period) (hM : 0 < env.max_iter)
    (hkeys : ∀ j, j < env.max_iter →
      ∀ k ∈ (reducedAt env (N + j)).map Prod.fst, k ∈ fixedKeys) :
    ∃ res, do_train env N store0 = Except.ok res ∧
      res.records.length = env.max_iter ∧
      (res.records.getD 0 default).iteration = N ∧
      (∀ j, j < env.max_iter →
        (res.records.getD j default).iteration = N + j ∧
        ((res.records.getD j default).checkpointed = true →
          (res.records.getD j default).savedIteration = some (N + j))) := by
  obtain ⟨st2, rs, hrun, hlen, hrec, _, hpos⟩ :=
    runLoop_records env (by omega) env.max_iter N
      { histories := h0, store := store0, argumentsIteration := N, lastIteration := none }
      hkeys
  obtain ⟨hlast, harg⟩ := hpos hM
  have hdo : do_train env N store0 = Except.ok
      { records := rs, finalCheckpointIteration := N + env.max_iter - 1,
        finalSavedArguments := st2.argumentsIteration, finalState := st2 } := by
    simp [do_train, hload, hrun, hlast, show ¬env.max_iter = 0 by omega]
  refine ⟨_, hdo, hlen, ?_, ?_⟩
  · have h := hrec 0 hM
    rw [h]
    simp [iterRecordAt]
  · intro j hj
    have h := hrec j hj
    rw [h]
    refine ⟨rfl, ?_⟩
    intro hc
    simp only [iterRecordAt] at hc ⊢
    rw [if_pos hc]

/-- C1 amended-claim witness: the amended statement applied to the concrete
resumed run of the counterexample (restart at `N = 2`). -/
theorem checkpoint_resume_reexecutes_witness :
    ∃ res, do_train envA 2 storeT = Except.ok res ∧
      res.records.length = envA.max_iter ∧
      (res.records.getD 0 default).iteration = 2 ∧
      (∀ j, j < envA.max_iter →
        (res.records.getD j default).iteration = 2 + j ∧
        ((res.records.getD j default).checkpointed = true →
          (res.records.getD j default).savedIteration = some (2 + j))) :=
  checkpoint_resume_reexecutes envA storeT (fun _ => []) 2 rfl (by decide) (by decide)
    (by decide)

/-- C2 counterexample: with all four history files absent (e.g. a fresh
output directory), `do_train` raises `FileNotFoundError` from `open` before
the loop starts — the condition is not treated as empty history — and with
corrupt (non-EOF) files it raises `UnpicklingError`; both abort the run. -/
theorem history_load_absent_counterexample :
    do_train envA 0 (fun _ => FileState.missing) = Except.error PyErr.fileNotFound ∧
    do_train envA 0 (fun _ => FileState.corrupt) = Except.error PyErr.unpicklingError :=
  ⟨rfl, rfl⟩

/-- C2 as amended: only a load failing with `EOFError` (empty or truncated
file) is recoverable, and recovery rebinds all four histories to empty lists
(trainer.py lines 71-75); a load hitting an absent file propagates
`FileNotFoundError` out of `do_train`, and a corrupt (non-EOF) pickle
propagates `UnpicklingError`, both fatal. -/
theorem history_load_error_modes (store : Store) (env : TrainEnv) (s : ℕ) :
    (tryLoadHistories store = Except.error PyErr.eofError →
      loadHistories store = Except.ok (fun _ => [])) ∧
    (store kLossClassifier = FileState.missing →
      do_train env s store = Except.error PyErr.fileNotFound) ∧
    (store kLossClassifier = FileState.corrupt →
      do_train env s store = Except.error PyErr.unpicklingError) := by
  refine ⟨?_, ?_, ?_⟩
  · intro h
    simp [loadHistories, h]
  · intro h
    have h1 : tryLoadHistories store = Except.error PyErr.fileNotFound := by
      simp [tryLoadHistories, h, loadFile]
    simp [do_train, loadHistories, h1]
  · intro h
    have h1 : tryLoadHistories store = Except.error PyErr.unpicklingError := by
      simp [tryLoadHistories, h, loadFile]
    simp [do_train, loadHistories, h1]

/-- C2 amended-claim witness: the three modes at concrete stores. -/
theorem history_load_error_modes_witness :
    loadHistories storeT = Except.ok (fun _ => []) ∧
    do_train envA 0 (fun _ => FileState.missing) = Except.error PyErr.fileNotFound ∧
    do_train envA 0 (fun _ => FileState.corrupt) = Except.error PyErr.unpicklingError :=
  ⟨(history_load_error_modes storeT envA 0).1 rfl,
   (history_load_error_modes (fun _ => FileState.missing) envA 0).2.1 rfl,
   (history_load_error_modes (fun _ => FileState.corrupt) envA 0).2.2 rfl⟩

/-- C9 counterexample: with an empty data loader (`max_iter = 0`) the
concrete run fails with an unbound-local error on the loop variable
`iteration` at the final checkpoint save (trainer.py line 147), not with the
claimed division-by-zero at the timing report (line 152), which is never
reached. -/
theorem max_iter_zero_counterexample :
    do_train envZero 0 storeT = Except.error (PyErr.unboundLocal kIteration) ∧
    do_train envZero 0 storeT ≠ Except.error PyErr.zeroDivision := by
  have h : do_train envZero 0 storeT = Except.error (PyErr.unboundLocal kIteration) := rfl
  refine ⟨h, ?_⟩
  rw [h]
  simp [kIteration]

/-- C9 as amended: whenever `max_iter = 0` and the history load succeeds,
`do_train` fails — but at the final `checkpointer.save` with an unbound
local variable `iteration` (the loop body never ran, so the loop variable was
never bound), and in particular not with a `ZeroDivisionError`: the division
by `max_iter` at the timing report is unreachable in that case. -/
theorem max_iter_zero_unbound_local (env : TrainEnv) (s : ℕ) (store0 : Store)
    (h0 : Histories) (hM : env.max_iter = 0)
    (hload : loadHistories store0 = Except.ok h0) :
    do_train env s store0 = Except.error (PyErr.unboundLocal kIteration) ∧
    do_train env s store0 ≠ Except.error PyErr.zeroDivision := by
  have h : do_train env s store0 = Except.error (PyErr.unboundLocal kIteration) := by
    simp [do_train, hload, hM, runLoop]
  refine ⟨h, ?_⟩
  rw [h]
  simp [kIteration]

/-- C9 amended-claim witness: the amended statement at the concrete empty
run. -/
theorem max_iter_zero_unbound_local_witness :
    do_train envZero 0 storeT = Except.error (PyErr.unboundLocal kIteration) ∧
    do_train envZero 0 storeT ≠ Except.error PyErr.zeroDivision :=
  max_iter_zero_unbound_local envZero 0 storeT (fun _ => []) rfl rfl

/-- C5: in every successfully executed loop iteration, the scalar handed to
`losses.backward()` / `optimizer.step()` is the sum of the entries of the
unreduced, per-worker loss mapping (trainer.py lines 89, 96-98), the scalar
handed to the metric logger is the sum of the cross-worker reduced mapping
(lines 93-94), and the backward value is unchanged under any change of the
distributed environment (worker count, other workers' losses) that keeps this
worker's own loss mapping — i.e. the reduction never feeds the gradient
step. -/
theorem backward_uses_unreduced_losses (env : TrainEnv) (st : LoopState) (i : ℕ)
    (st1 : LoopState) (r : IterRecord)
    (h : iterStep env st i = Except.ok (st1, r)) :
    r.backwardLoss = sumValues (env.lossAt env.rank i) ∧
    r.loggedLoss = sumValues (reducedAt env i) ∧
    (∀ (env2 : TrainEnv) (st2 : LoopState) (st3 : LoopState) (r2 : IterRecord),
      env2.lossAt env2.rank i = env.lossAt env.rank i →
      iterStep env2 st2 i = Except.ok (st3, r2) →
      r2.backwardLoss = r.backwardLoss) := by
  have hr := iterStep_ok_record env st i st1 r h
  refine ⟨by rw [hr]; rfl, by rw [hr]; rfl, ?_⟩
  intro env2 st2 st3 r2 hloss h2
  have hr2 := iterStep_ok_record env2 st2 i st3 r2 h2
  rw [hr, hr2]
  show sumValues (env2.lossAt env2.rank i) = sumValues (env.lossAt env.rank i)
  rw [hloss]

/-- C5 witness: the property applied to a concrete successful iteration. -/
theorem backward_uses_unreduced_losses_witness :
    ∃ st1 r, iterStep envA stA 0 = Except.ok (st1, r) ∧
      r.backwardLoss = sumValues (envA.lossAt envA.rank 0) ∧
      r.loggedLoss = sumValues (reducedAt envA 0) := by
  have hok : exceptIsOk (iterStep envA stA 0) = true := by decide
  cases h : iterStep envA stA 0 with
  | error e =>
    rw [h] at hok
    simp [exceptIsOk] at hok
  | ok p =>
    obtain ⟨st1, r⟩ := p
    obtain ⟨h1, h2, _⟩ := backward_uses_unreduced_losses envA stA 0 st1 r h
    exact ⟨st1, r, rfl, h1, h2⟩

/-- C10: if the loop reaches an iteration whose reduced loss mapping carries
a key outside the four initialised history variables (all earlier iterations
carrying only bound keys), the dynamically built history-append statement
fails to resolve that name and `do_train` aborts with a `NameError` on a key
outside the bound set (trainer.py lines 67-75, 107-109). -/
theorem unknown_loss_key_aborts (env : TrainEnv) (s : ℕ) (store0 : Store) (h0 : Histories)
    (hload : loadHistories store0 = Except.ok h0) (hP : 0 < env.checkpoint_period)
    (j : ℕ) (hj : j < env.max_iter)
    (hgood : ∀ j1, j1 < j → ∀ k ∈ (reducedAt env (s + j1)).map Prod.fst, k ∈ fixedKeys)
    (hbad : ∃ k ∈ (reducedAt env (s + j)).map Prod.fst, k ∉ fixedKeys) :
    ∃ k, k ∉ fixedKeys ∧ do_train env s store0 = Except.error (PyErr.nameError k) := by
  obtain ⟨k, hknf, herr⟩ :=
    runLoop_nameError env (by omega) j env.max_iter s
      { histories := h0, store := store0, argumentsIteration := s, lastIteration := none }
      hj hgood hbad
  exact ⟨k, hknf, by simp [do_train, hload, herr]⟩

/-- C10 witness: a run whose model emits the unbound key `loss_mask` aborts
with a `NameError`. -/
theorem unknown_loss_key_aborts_witness :
    ∃ k, k ∉ fixedKeys ∧ do_train envMask 0 storeT = Except.error (PyErr.nameError k) :=
  unknown_loss_key_aborts envMask 0 storeT (fun _ => []) rfl (by decide) 0 (by decide)
    (fun j1 hj1 => absurd hj1 (Nat.not_lt_zero j1))
    ⟨kLossMask, by decide, by decide⟩

/-- C8: starting from empty histories, a run of `K = max_iter > 0`
iterations whose reduced mappings all carry the same duplicate-free list of
bound keys appends each tracked key's reduced scalar to its history and
rewrites that key's file on every iteration (trainer.py lines 107-109, which
run unconditionally, outside the `iteration % 20` logging guard of line 112):
afterwards the persisted sequence for the key is exactly the `K` reduced
values in iteration order, and reloading the file reproduces that sequence. -/
theorem loss_history_per_iteration (env : TrainEnv) (store0 : Store)
    (ks : List String) (key : String)
    (hload : loadHistories store0 = Except.ok (fun _ => []))
    (hP : 0 < env.checkpoint_period) (hM : 0 < env.max_iter)
    (hnd : ks.Nodup) (hsub : ∀ k ∈ ks, k ∈ fixedKeys) (hkey : key ∈ ks)
    (hkeys : ∀ i, i < env.max_iter → (reducedAt env i).map Prod.fst = ks) :
    ∃ res, do_train env 0 store0 = Except.ok res ∧
      res.finalState.histories key
        = (List.range env.max_iter).map
            (fun i => (List.lookup key (reducedAt env i)).getD 0) ∧
      (res.finalState.histories key).length = env.max_iter ∧
      res.finalState.store key = FileState.ok (res.finalState.histories key) ∧
      loadFile (res.finalState.store key)
        = Except.ok (res.finalState.histories key) := by
  obtain ⟨st2, rs, hrun, hhist, hstore, _, hlast⟩ :=
    runLoop_histories env (by omega) ks hnd hsub env.max_iter 0
      { histories := fun _ => [], store := store0,
        argumentsIteration := 0, lastIteration := none }
      (fun j hj => by
        have h := hkeys j hj
        simpa using h)
  have hdo : do_train env 0 store0 = Except.ok
      { records := rs, finalCheckpointIteration := 0 + env.max_iter - 1,
        finalSavedArguments := st2.argumentsIteration, finalState := st2 } := by
    simp [do_train, hload, hrun, hlast hM, show ¬env.max_iter = 0 by omega]
  have hh : st2.histories key
      = (List.range env.max_iter).map
          (fun i => (List.lookup key (reducedAt env i)).getD 0) := by
    have h := hhist key hkey
    simpa using h
  have hs : st2.store key = FileState.ok (st2.histories key) := hstore key hkey hM
  refine ⟨_, hdo, hh, by rw [hh]; simp, hs, ?_⟩
  rw [hs]
  rfl

/-- C8 witness: the per-iteration history property at the concrete
three-iteration run (`K = 3`, constant classifier loss). -/
theorem loss_history_per_iteration_witness :
    ∃ res, do_train envA 0 storeT = Except.ok res ∧
      res.finalState.histories kLossClassifier
        = (List.range envA.max_iter).map
            (fun i => (List.lookup kLossClassifier (reducedAt envA i)).getD 0) ∧
      (res.finalState.histories kLossClassifier).length = envA.max_iter ∧
      res.finalState.store kLossClassifier
        = FileState.ok (res.finalState.histories kLossClassifier) ∧
      loadFile (res.finalState.store kLossClassifier)
        = Except.ok (res.finalState.histories kLossClassifier) :=
  loss_history_per_iteration envA storeT [kLossClassifier] kLossClassifier rfl
    (by decide) (by decide) (by decide) (by decide) (by decide) (by decide)
